import Mathlib

/-!
Verification of the CalcsLive-plug-for-Inventor comment-mapping codec.

The development shallowly embeds the two Python implementations of the
comment grammar found in the repository:

* `parse_comment_mapping` / `build_comment_string` — the "CA0:symbol #note"
  codec of `test_comment_parser.py` (the grammar the specification
  describes);
* `InventorApi.parse_comment_mapping` / `InventorApi.build_comment_string`
  — the older "#AC:symbol #Note:{{text}}" token grammar deployed in
  `inventor_api.py`.

Strings are modelled as Lean `String`s (lists of unicode characters, the
same data model as Python `str`); Python's whitespace handling and its
`int()` literal syntax are modelled on their ASCII fragment.
-/

/-- Characters that Python `str.strip()` removes (ASCII fragment):
space, tab, newline, carriage return, vertical tab, form feed. -/
def isPySpace (c : Char) : Bool :=
  c = ' ' || c = '\t' || c = '\n' || c = '\r' || c = '\x0b' || c = '\x0c'

/-- Python `str.strip()` on a character list: drop whitespace from both
ends. -/
def pyStripList (l : List Char) : List Char :=
  ((l.dropWhile isPySpace).reverse.dropWhile isPySpace).reverse

/-- Python `str.strip()` on a string. -/
def pyStrip (s : String) : String :=
  String.mk (pyStripList s.data)

/-- Python `s.split(sep, 1)` (when `sep` occurs): the part before the
first occurrence of `sep` and the part after it; `none` when `sep` does
not occur. -/
def splitFirst (sep : Char) : List Char → Option (List Char × List Char)
  | [] => none
  | c :: rest =>
    if c = sep then some ([], rest)
    else
      match splitFirst sep rest with
      | none => none
      | some (a, b) => some (c :: a, b)

/-- Python `c in s` membership test. -/
def containsChar (c : Char) (l : List Char) : Bool :=
  l.any (fun x => x == c)

/-- Tail of Python's decimal integer literal grammar after its first
digit: `(["_"] digit)*` — digits possibly separated by single
underscores, never ending in an underscore. -/
def digitTail : List Char → Bool
  | [] => true
  | [c] => c.isDigit
  | c1 :: c2 :: rest =>
    if c1 = '_' then c2.isDigit && digitTail rest
    else c1.isDigit && digitTail (c2 :: rest)

/-- Python's decimal digit-part grammar: `digit (["_"] digit)*`. -/
def digitPart : List Char → Bool
  | [] => false
  | c :: rest => c.isDigit && digitTail rest

/-- Whether Python `int(s)` succeeds on `s` (ASCII fragment): optional
surrounding whitespace, an optional single `+` or `-` sign, then a
digit-part. Note that this accepts signed numerals such as `"-1"`. -/
def pyIntOk (l : List Char) : Bool :=
  match pyStripList l with
  | [] => false
  | c :: rest =>
    if c = '+' || c = '-' then digitPart rest
    else digitPart (c :: rest)

/-- The decoded form of a comment: the Python dict
`{"mapping": ..., "note": ...}` returned by `parse_comment_mapping`. -/
structure MappingRecord where
  mapping : Option String
  note : Option String
deriving DecidableEq

/-- The canonical empty record `{"mapping": None, "note": None}`. -/
def emptyRecord : MappingRecord := ⟨none, none⟩

/-- The mapping part of an already-stripped comment: the text before the
first `#` (the whole text when there is no `#`), stripped again —
`mapping_part.strip()` in the source. -/
def mappingPartOf (stripped : List Char) : List Char :=
  pyStripList
    (match splitFirst '#' stripped with
     | some (before, _) => before
     | none => stripped)

/-- The note candidate of an already-stripped comment: the stripped text
after the first `#`, `none` when absent or blank —
`note_part.strip() if note_part.strip() else None` in the source. -/
def noteCandOf (stripped : List Char) : Option String :=
  match splitFirst '#' stripped with
  | some (_, after) =>
    if pyStripList after = [] then none else some (String.mk (pyStripList after))
  | none => none

/-- Namespace validation of `parse_comment_mapping`: starts with `"CA"`,
has length at least 3, and `int(namespace[2:])` succeeds. -/
def nsValid (ns : List Char) : Bool :=
  match ns with
  | 'C' :: 'A' :: rest => !rest.isEmpty && pyIntOk rest
  | _ => false

/-- The new comment parser of `test_comment_parser.py`
(`parse_comment_mapping`): strip the comment; empty/blank input gives the
empty record; split off the note at the first `#`; the mapping part must
contain a colon, splitting at the first colon into a namespace (validated
as `CA` + `int`-parseable text) and a symbol (non-empty, colon-free);
any validation failure returns the empty record. -/
def parse_comment_mapping (comment : String) : MappingRecord :=
  if pyStripList comment.data = [] then emptyRecord
  else
    match splitFirst ':' (mappingPartOf (pyStripList comment.data)) with
    | none => emptyRecord
    | some (nsRaw, symRaw) =>
      if nsValid (pyStripList nsRaw) = true then
        if pyStripList symRaw = [] ∨ containsChar ':' (pyStripList symRaw) = true then
          emptyRecord
        else
          ⟨some (String.mk (pyStripList symRaw)), noteCandOf (pyStripList comment.data)⟩
      else emptyRecord

/-- The namespace candidate inspected by `parse_comment_mapping` on input
`s`: the stripped text before the first colon of the mapping part
(`[]` when the mapping part has no colon). -/
def nsCandOf (s : String) : List Char :=
  match splitFirst ':' (mappingPartOf (pyStripList s.data)) with
  | some (a, _) => pyStripList a
  | none => []

/-- The symbol candidate inspected by `parse_comment_mapping` on input
`s`: the stripped text after the first colon of the mapping part
(`[]` when the mapping part has no colon). -/
def symCandOf (s : String) : List Char :=
  match splitFirst ':' (mappingPartOf (pyStripList s.data)) with
  | some (_, b) => pyStripList b
  | none => []

/-- The new comment builder of `test_comment_parser.py`
(`build_comment_string`), with the namespace argument explicit: a falsy
symbol gives the empty string; otherwise `"<ns>:<symbol>"`, with
`" #" + note.strip()` appended when the note is truthy and non-blank. -/
def build_comment_string_ns (ns : String) (symbol : Option String)
    (note : Option String) : String :=
  match symbol with
  | none => ""
  | some s =>
    if s = "" then ""
    else
      match note with
      | none => ns ++ ":" ++ s
      | some n =>
        if n = "" then ns ++ ":" ++ s
        else if pyStripList n.data = [] then ns ++ ":" ++ s
        else ns ++ ":" ++ s ++ " #" ++ pyStrip n

/-- The builder `build_comment_string` with its default namespace `"CA0"`. -/
def build_comment_string (symbol : Option String) (note : Option String) : String :=
  build_comment_string_ns "CA0" symbol note

namespace InventorApi

/-- Whether `pre` is a literal character-list prefix of `l`
(Python `str.startswith`). -/
def startsWithChars : List Char → List Char → Bool
  | [], _ => true
  | _ :: _, [] => false
  | p :: ps, c :: cs => p = c && startsWithChars ps cs

/-- Characters removed by Python `str.strip("{}")`. -/
def isBrace (c : Char) : Bool :=
  c = '\x7b' || c = '\x7d'

/-- Python `str.strip("{}")`: drop `{` and `}` from both ends. -/
def stripBraces (l : List Char) : List Char :=
  ((l.dropWhile isBrace).reverse.dropWhile isBrace).reverse

/-- Accumulator-based worker for Python `str.split()` with no
separator argument: split on runs of whitespace, dropping empties. -/
def splitWsAux : List Char → List Char → List (List Char)
  | [], acc => if acc = [] then [] else [acc.reverse]
  | c :: rest, acc =>
    if isPySpace c then
      if acc = [] then splitWsAux rest []
      else acc.reverse :: splitWsAux rest []
    else splitWsAux rest (c :: acc)

/-- Python `str.split()` with no arguments. -/
def pySplitWs (l : List Char) : List (List Char) :=
  splitWsAux l []

/-- One step of the token loop of `inventor_api.parse_comment_mapping`:
a token starting with `"#AC:"` sets the mapping to the rest of the
token; a token starting with `"#Note:"` sets the note to the rest of the
token with `{`/`}` stripped from its ends; other tokens are ignored. -/
def tokenStep (r : MappingRecord) (part : List Char) : MappingRecord :=
  if startsWithChars ['#', 'A', 'C', ':'] part then
    ⟨some (String.mk (part.drop 4)), r.note⟩
  else if startsWithChars ['#', 'N', 'o', 't', 'e', ':'] part then
    ⟨r.mapping, some (String.mk (stripBraces (part.drop 6)))⟩
  else r

/-- The comment parser deployed in `inventor_api.py`
(`parse_comment_mapping`): split the comment on whitespace and fold the
token loop over the parts. -/
def parse_comment_mapping (comment : String) : MappingRecord :=
  if comment = "" then ⟨none, none⟩
  else (pySplitWs comment.data).foldl tokenStep ⟨none, none⟩

end InventorApi

/-! ### Basic lemmas about the character-level helpers -/

theorem data_mk (l : List Char) : (String.mk l).data = l := rfl

theorem string_mk_data (s : String) : String.mk s.data = s := rfl

theorem containsChar_eq_false_of {c : Char} {l : List Char} (h : c ∉ l) :
    containsChar c l = false := by
  cases hb : containsChar c l with
  | false => rfl
  | true =>
    exfalso
    obtain ⟨x, hx, he⟩ := List.any_eq_true.mp hb
    exact h ((eq_of_beq he) ▸ hx)

theorem splitFirst_eq_none_of (sep : Char) (l : List Char) (h : sep ∉ l) :
    splitFirst sep l = none := by
  induction l with
  | nil => rfl
  | cons c rest ih =>
    have hc : ¬ c = sep := fun he => h (he ▸ List.mem_cons_self c rest)
    have hr : sep ∉ rest := fun hm => h (List.mem_cons_of_mem _ hm)
    simp only [splitFirst, if_neg hc, ih hr]

theorem splitFirst_append (sep : Char) (a b : List Char) (ha : sep ∉ a) :
    splitFirst sep (a ++ sep :: b) = some (a, b) := by
  induction a with
  | nil => simp [splitFirst]
  | cons c rest ih =>
    have hc : ¬ c = sep := fun he => ha (he ▸ List.mem_cons_self c rest)
    have hr : sep ∉ rest := fun hm => ha (List.mem_cons_of_mem _ hm)
    simp only [List.cons_append, splitFirst, if_neg hc, List.append_eq, ih hr]

theorem dropWhile_cons_of_ns (c : Char) (t : List Char) (h : isPySpace c = false) :
    List.dropWhile isPySpace (c :: t) = c :: t := by
  rw [List.dropWhile_cons, if_neg]
  simp [h]

theorem head_not_space (c : Char) (t : List Char)
    (h : List.dropWhile isPySpace (c :: t) = c :: t) : isPySpace c = false := by
  cases hc : isPySpace c with
  | false => rfl
  | true =>
    exfalso
    rw [List.dropWhile_cons, if_pos hc] at h
    have hle := (List.dropWhile_suffix (l := t) isPySpace).length_le
    have := congrArg List.length h
    simp only [List.length_cons] at this
    omega

theorem dropWhile_append_self (x y : List Char)
    (hx : List.dropWhile isPySpace x = x) (hne : x ≠ []) :
    List.dropWhile isPySpace (x ++ y) = x ++ y := by
  cases x with
  | nil => exact absurd rfl hne
  | cons c t =>
    have hc : isPySpace c = false := head_not_space c t hx
    simp only [List.cons_append]
    exact dropWhile_cons_of_ns c (t ++ y) hc

theorem pyStripList_eq_self (l : List Char)
    (h1 : List.dropWhile isPySpace l = l)
    (h2 : List.dropWhile isPySpace l.reverse = l.reverse) :
    pyStripList l = l := by
  unfold pyStripList
  rw [h1, h2, List.reverse_reverse]

theorem strip_parts (l : List Char) (h : pyStripList l = l) :
    List.dropWhile isPySpace l = l ∧
      List.dropWhile isPySpace l.reverse = l.reverse := by
  have hlen := congrArg List.length h
  unfold pyStripList at hlen
  rw [List.length_reverse] at hlen
  have t1 : (List.dropWhile isPySpace (List.dropWhile isPySpace l).reverse).length ≤
      (List.dropWhile isPySpace l).reverse.length :=
    (List.dropWhile_suffix isPySpace).length_le
  rw [List.length_reverse] at t1
  have t2 : (List.dropWhile isPySpace l).length ≤ l.length :=
    (List.dropWhile_suffix isPySpace).length_le
  have e1len : (List.dropWhile isPySpace l).length = l.length := by omega
  have e1 : List.dropWhile isPySpace l = l :=
    (List.dropWhile_suffix isPySpace).eq_of_length e1len
  refine ⟨e1, ?_⟩
  rw [e1] at hlen
  have e2len : (List.dropWhile isPySpace l.reverse).length = l.reverse.length := by
    rw [List.length_reverse]; exact hlen
  exact (List.dropWhile_suffix isPySpace).eq_of_length e2len

theorem dropWhile_eq_self_of_all (l : List Char)
    (h : ∀ c ∈ l, isPySpace c = false) :
    List.dropWhile isPySpace l = l := by
  cases l with
  | nil => rfl
  | cons c t => exact dropWhile_cons_of_ns c t (h c (List.mem_cons_self c t))

theorem pyStripList_eq_self_of_all (l : List Char)
    (h : ∀ c ∈ l, isPySpace c = false) :
    pyStripList l = l :=
  pyStripList_eq_self l (dropWhile_eq_self_of_all l h)
    (dropWhile_eq_self_of_all l.reverse (fun c hc => h c (List.mem_reverse.mp hc)))

theorem strip_append_space (x : List Char) (h : pyStripList x = x) (hne : x ≠ []) :
    pyStripList (x ++ [' ']) = x := by
  obtain ⟨h1, h2⟩ := strip_parts x h
  unfold pyStripList
  rw [dropWhile_append_self x [' '] h1 hne, List.reverse_append]
  have : ([' '] : List Char).reverse ++ x.reverse = ' ' :: x.reverse := rfl
  rw [this, List.dropWhile_cons, if_pos (by decide : isPySpace ' ' = true), h2,
    List.reverse_reverse]

/-! ### Character classification lemmas -/

theorem not_space_of_digit (c : Char) (h : c.isDigit = true) : isPySpace c = false := by
  cases hsp : isPySpace c with
  | false => rfl
  | true =>
    exfalso
    have hm := hsp
    simp only [isPySpace, Bool.or_eq_true, decide_eq_true_eq] at hm
    rcases hm with ((((rfl | rfl) | rfl) | rfl) | rfl) | rfl <;> exact absurd h (by decide)

theorem ne_of_digit (c d : Char) (hd : d.isDigit = false) (h : c.isDigit = true) :
    c ≠ d := by
  intro he
  rw [he, hd] at h
  cases h

/-! ### Lemmas about the Python int grammar on digit strings -/

theorem digitTail_of_all (l : List Char) (h : ∀ c ∈ l, c.isDigit = true) :
    digitTail l = true := by
  induction l with
  | nil => rfl
  | cons c t ih =>
    cases t with
    | nil => simpa [digitTail] using h c (List.mem_cons_self c [])
    | cons c2 r =>
      have hc : c.isDigit = true := h c (List.mem_cons_self c (c2 :: r))
      have hne : ¬ c = '_' := ne_of_digit c '_' (by decide) hc
      simp only [digitTail, if_neg hne, hc, Bool.true_and]
      exact ih (fun x hx => h x (List.mem_cons_of_mem _ hx))

theorem pyIntOk_of_digits (d : List Char) (hne : d ≠ [])
    (hdd : ∀ c ∈ d, c.isDigit = true) : pyIntOk d = true := by
  have hstr : pyStripList d = d :=
    pyStripList_eq_self_of_all d (fun c hc => not_space_of_digit c (hdd c hc))
  cases d with
  | nil => exact absurd rfl hne
  | cons c r =>
    have hc : c.isDigit = true := hdd c (List.mem_cons_self c r)
    have h1 : decide (c = '+') = false := decide_eq_false (ne_of_digit c '+' (by decide) hc)
    have h2 : decide (c = '-') = false := decide_eq_false (ne_of_digit c '-' (by decide) hc)
    unfold pyIntOk
    rw [hstr]
    simp only [h1, h2, Bool.or_self, Bool.false_eq_true, if_false, digitPart, hc,
      Bool.true_and]
    exact digitTail_of_all r (fun x hx => hdd x (List.mem_cons_of_mem _ hx))

theorem nsValid_CA (d : List Char) (hne : d ≠ [])
    (hdd : ∀ c ∈ d, c.isDigit = true) : nsValid ('C' :: 'A' :: d) = true := by
  have h1 : d.isEmpty = false := by cases d with | nil => exact absurd rfl hne | cons => rfl
  simp only [nsValid, h1, Bool.not_false, Bool.true_and]
  exact pyIntOk_of_digits d hne hdd

/-! ### Structure of well-formed comments under `parse_comment_mapping` -/

theorem colon_not_mem_CA (d : List Char) (hdd : ∀ c ∈ d, c.isDigit = true) :
    ':' ∉ ('C' :: 'A' :: d) := by
  intro hm
  simp only [List.mem_cons] at hm
  rcases hm with h | h | h
  · exact absurd h (by decide)
  · exact absurd h (by decide)
  · exact absurd (hdd _ h) (by decide)

theorem hash_not_mem_full (d sym : List Char) (hdd : ∀ c ∈ d, c.isDigit = true)
    (hhash : '#' ∉ sym) : '#' ∉ ('C' :: 'A' :: d ++ ':' :: sym) := by
  intro hm
  rcases List.mem_cons.mp hm with h | hm
  · exact absurd h (by decide)
  rcases List.mem_cons.mp hm with h | hm
  · exact absurd h (by decide)
  rcases List.mem_append.mp hm with h | hm
  · exact absurd (hdd _ h) (by decide)
  rcases List.mem_cons.mp hm with h | h
  · exact absurd h (by decide)
  · exact hhash h

theorem strip_full (d sym : List Char)
    (hs : sym ≠ []) (hstrip : pyStripList sym = sym) :
    pyStripList ('C' :: 'A' :: d ++ ':' :: sym) = 'C' :: 'A' :: d ++ ':' :: sym := by
  apply pyStripList_eq_self
  · exact dropWhile_cons_of_ns 'C' _ (by decide)
  · have hB : 'C' :: 'A' :: d ++ ':' :: sym = (('C' :: 'A' :: d) ++ [':']) ++ sym := by
      simp
    rw [hB, List.reverse_append]
    apply dropWhile_append_self
    · exact (strip_parts sym hstrip).2
    · simpa [List.reverse_eq_nil_iff] using hs

/-- Core of the success path: if the mapping part of a comment is exactly
`CA<digits>:<symbol>` with a stripped, non-empty, colon-free symbol, the
parser returns that symbol together with the note candidate. -/
theorem parse_mapping_result (comment : String) (d sym : List Char)
    (hd : d ≠ []) (hdd : ∀ c ∈ d, c.isDigit = true)
    (hs : sym ≠ []) (hstrip : pyStripList sym = sym)
    (hcolon : ':' ∉ sym)
    (hstripc : pyStripList comment.data ≠ [])
    (hmp : mappingPartOf (pyStripList comment.data) = 'C' :: 'A' :: d ++ ':' :: sym) :
    parse_comment_mapping comment =
      ⟨some (String.mk sym), noteCandOf (pyStripList comment.data)⟩ := by
  have hLeq : 'C' :: 'A' :: d ++ ':' :: sym = ('C' :: 'A' :: d) ++ ':' :: sym := by simp
  have hsplitc : splitFirst ':' ('C' :: 'A' :: d ++ ':' :: sym) =
      some ('C' :: 'A' :: d, sym) := by
    rw [hLeq]; exact splitFirst_append ':' _ sym (colon_not_mem_CA d hdd)
  have hnsA : pyStripList ('C' :: 'A' :: d) = 'C' :: 'A' :: d := by
    apply pyStripList_eq_self_of_all
    intro c hc
    simp only [List.mem_cons] at hc
    rcases hc with rfl | rfl | h
    · decide
    · decide
    · exact not_space_of_digit c (hdd c h)
  have hnsv := nsValid_CA d hd hdd
  have hsymc := containsChar_eq_false_of hcolon
  unfold parse_comment_mapping
  rw [if_neg hstripc, hmp, hsplitc]
  simp only [hnsA, hnsv, hstrip, hsymc, if_true]
  rw [if_neg]
  intro hor
  rcases hor with h | h
  · exact hs h
  · cases h

/-- Parsing `CA<digits>:<symbol>` (no note part) yields the symbol and no
note, for a stripped, non-empty symbol containing neither a colon nor a
hash. -/
theorem parse_ns_sym (d sym : List Char)
    (hd : d ≠ []) (hdd : ∀ c ∈ d, c.isDigit = true)
    (hs : sym ≠ []) (hstrip : pyStripList sym = sym)
    (hcolon : ':' ∉ sym) (hhash : '#' ∉ sym) :
    parse_comment_mapping (String.mk ('C' :: 'A' :: d ++ ':' :: sym)) =
      ⟨some (String.mk sym), none⟩ := by
  have hnm := hash_not_mem_full d sym hdd hhash
  have hLs := strip_full d sym hs hstrip
  have hnone := splitFirst_eq_none_of '#' _ hnm
  have hstripc : pyStripList (String.mk ('C' :: 'A' :: d ++ ':' :: sym)).data ≠ [] := by
    rw [data_mk, hLs]; exact List.cons_ne_nil _ _
  have hmp : mappingPartOf
      (pyStripList (String.mk ('C' :: 'A' :: d ++ ':' :: sym)).data) =
      'C' :: 'A' :: d ++ ':' :: sym := by
    rw [data_mk, hLs]
    unfold mappingPartOf
    rw [hnone]
    exact hLs
  have hnote : noteCandOf
      (pyStripList (String.mk ('C' :: 'A' :: d ++ ':' :: sym)).data) = none := by
    rw [data_mk, hLs]
    unfold noteCandOf
    rw [hnone]
  rw [parse_mapping_result (String.mk ('C' :: 'A' :: d ++ ':' :: sym)) d sym hd hdd hs
    hstrip hcolon hstripc hmp, hnote]

/-- Parsing `CA<digits>:<symbol> #<note>` yields the symbol and the note
verbatim, for a stripped, non-empty symbol containing neither a colon nor
a hash, and a stripped non-empty note (which may itself contain further
hash or backtick characters). -/
theorem parse_ns_sym_note (d sym note : List Char)
    (hd : d ≠ []) (hdd : ∀ c ∈ d, c.isDigit = true)
    (hs : sym ≠ []) (hstrip : pyStripList sym = sym)
    (hcolon : ':' ∉ sym) (hhash : '#' ∉ sym)
    (hn : note ≠ []) (hnstrip : pyStripList note = note) :
    parse_comment_mapping
      (String.mk ('C' :: 'A' :: d ++ ':' :: (sym ++ ' ' :: '#' :: note))) =
      ⟨some (String.mk sym), some (String.mk note)⟩ := by
  have hA := hash_not_mem_full d sym hdd hhash
  have hAs := strip_full d sym hs hstrip
  have hshape : 'C' :: 'A' :: d ++ ':' :: (sym ++ ' ' :: '#' :: note) =
      (('C' :: 'A' :: d ++ ':' :: sym) ++ [' ']) ++ '#' :: note := by
    simp
  have hnmA : '#' ∉ (('C' :: 'A' :: d ++ ':' :: sym) ++ [' ']) := by
    intro hm
    rcases List.mem_append.mp hm with h | h
    · exact hA h
    · simp only [List.mem_singleton] at h
      exact absurd h (by decide)
  have hsplith : splitFirst '#'
      ('C' :: 'A' :: d ++ ':' :: (sym ++ ' ' :: '#' :: note)) =
      some (('C' :: 'A' :: d ++ ':' :: sym) ++ [' '], note) := by
    rw [hshape]
    exact splitFirst_append '#' _ note hnmA
  have hLs : pyStripList ('C' :: 'A' :: d ++ ':' :: (sym ++ ' ' :: '#' :: note)) =
      'C' :: 'A' :: d ++ ':' :: (sym ++ ' ' :: '#' :: note) := by
    apply pyStripList_eq_self
    · exact dropWhile_cons_of_ns 'C' _ (by decide)
    · have hB : 'C' :: 'A' :: d ++ ':' :: (sym ++ ' ' :: '#' :: note) =
          (('C' :: 'A' :: d ++ ':' :: sym) ++ [' ', '#']) ++ note := by
        simp
      rw [hB, List.reverse_append]
      apply dropWhile_append_self
      · exact (strip_parts note hnstrip).2
      · simpa [List.reverse_eq_nil_iff] using hn
  have hstripc : pyStripList
      (String.mk ('C' :: 'A' :: d ++ ':' :: (sym ++ ' ' :: '#' :: note))).data ≠ [] := by
    rw [data_mk, hLs]; exact List.cons_ne_nil _ _
  have hmp : mappingPartOf
      (pyStripList
        (String.mk ('C' :: 'A' :: d ++ ':' :: (sym ++ ' ' :: '#' :: note))).data) =
      'C' :: 'A' :: d ++ ':' :: sym := by
    rw [data_mk, hLs]
    unfold mappingPartOf
    rw [hsplith]
    exact strip_append_space _ hAs (List.cons_ne_nil _ _)
  have hnote : noteCandOf
      (pyStripList
        (String.mk ('C' :: 'A' :: d ++ ':' :: (sym ++ ' ' :: '#' :: note))).data) =
      some (String.mk note) := by
    rw [data_mk, hLs]
    unfold noteCandOf
    rw [hsplith]
    show (if pyStripList note = [] then none
      else some (String.mk (pyStripList note))) = some (String.mk note)
    rw [hnstrip, if_neg hn]
  rw [parse_mapping_result _ d sym hd hdd hs hstrip hcolon hstripc hmp, hnote]

/-! ### Inversion of the parser on successful inputs -/

/-- Evaluation of the parser once the colon split of the mapping part is
known. -/
theorem parse_eval (s : String) (h0 : pyStripList s.data ≠ [])
    (a b : List Char)
    (hsp : splitFirst ':' (mappingPartOf (pyStripList s.data)) = some (a, b)) :
    parse_comment_mapping s =
      if nsValid (pyStripList a) = true then
        if pyStripList b = [] ∨ containsChar ':' (pyStripList b) = true then emptyRecord
        else ⟨some (String.mk (pyStripList b)), noteCandOf (pyStripList s.data)⟩
      else emptyRecord := by
  unfold parse_comment_mapping
  rw [if_neg h0, hsp]

/-- Any non-empty parse result comes from a colon split of the mapping
part whose namespace validates and whose stripped symbol is non-empty and
colon-free; the result is that symbol with the note candidate. -/
theorem parse_inv (s : String) (h : parse_comment_mapping s ≠ emptyRecord) :
    ∃ a b, splitFirst ':' (mappingPartOf (pyStripList s.data)) = some (a, b) ∧
      nsValid (pyStripList a) = true ∧ pyStripList b ≠ [] ∧
      containsChar ':' (pyStripList b) = false ∧
      parse_comment_mapping s =
        ⟨some (String.mk (pyStripList b)), noteCandOf (pyStripList s.data)⟩ := by
  by_cases h0 : pyStripList s.data = []
  · exfalso
    apply h
    unfold parse_comment_mapping
    rw [if_pos h0]
  · cases hsp : splitFirst ':' (mappingPartOf (pyStripList s.data)) with
    | none =>
      exfalso
      apply h
      unfold parse_comment_mapping
      rw [if_neg h0, hsp]
    | some p =>
      obtain ⟨a, b⟩ := p
      have hev := parse_eval s h0 a b hsp
      by_cases hns : nsValid (pyStripList a) = true
      · by_cases hsym : pyStripList b = [] ∨ containsChar ':' (pyStripList b) = true
        · rw [hev, if_pos hns, if_pos hsym] at h
          exact absurd rfl h
        · have hne : pyStripList b ≠ [] := fun he => hsym (Or.inl he)
          have hcc : containsChar ':' (pyStripList b) = false := by
            cases hcc0 : containsChar ':' (pyStripList b) with
            | false => rfl
            | true => exact absurd (Or.inr hcc0) hsym
          refine ⟨a, b, by simp [hsp], hns, hne, hcc, ?_⟩
          rw [hev, if_pos hns, if_neg hsym]
      · rw [hev, if_neg hns] at h
        exact absurd rfl h

/-- A parse result with no mapping is the whole empty record: a note
candidate never survives a validation failure. -/
theorem parse_mapping_none (s : String) (h : (parse_comment_mapping s).mapping = none) :
    parse_comment_mapping s = emptyRecord := by
  by_cases he : parse_comment_mapping s = emptyRecord
  · exact he
  · obtain ⟨a, b, _, _, _, _, hres⟩ := parse_inv s he
    rw [hres] at h
    simp at h

/-! ### String-level forms of the success lemmas -/

theorem data_append (s t : String) : (s ++ t).data = s.data ++ t.data := by
  cases s
  cases t
  rfl

/-- Parsing `"CA" ++ d ++ ":" ++ sym` for a non-empty digit string `d`
and a stripped, non-empty symbol without colon or hash yields that symbol
and no note. -/
theorem parse_ns_sym_str (d sym : String) (hd : d.data ≠ [])
    (hdd : ∀ c ∈ d.data, c.isDigit = true) (hs : sym ≠ "")
    (hstrip : pyStrip sym = sym) (hcolon : ':' ∉ sym.data) (hhash : '#' ∉ sym.data) :
    parse_comment_mapping ("CA" ++ d ++ ":" ++ sym) = ⟨some sym, none⟩ := by
  have hds : sym.data ≠ [] := by
    intro he
    exact hs (String.ext he)
  have hstripl : pyStripList sym.data = sym.data := congrArg String.data hstrip
  have heq : ("CA" ++ d ++ ":" ++ sym) =
      String.mk ('C' :: 'A' :: d.data ++ ':' :: sym.data) := by
    apply String.ext
    simp [data_append, data_mk]
  rw [heq, parse_ns_sym d.data sym.data hd hdd hds hstripl hcolon hhash,
    string_mk_data]

/-- Parsing `"CA" ++ d ++ ":" ++ sym ++ " #" ++ n` additionally returns
the non-empty stripped note `n` verbatim. -/
theorem parse_ns_sym_note_str (d sym n : String) (hd : d.data ≠ [])
    (hdd : ∀ c ∈ d.data, c.isDigit = true) (hs : sym ≠ "")
    (hstrip : pyStrip sym = sym) (hcolon : ':' ∉ sym.data) (hhash : '#' ∉ sym.data)
    (hn : n ≠ "") (hnstrip : pyStrip n = n) :
    parse_comment_mapping ("CA" ++ d ++ ":" ++ sym ++ " #" ++ n) =
      ⟨some sym, some n⟩ := by
  have hds : sym.data ≠ [] := by
    intro he
    exact hs (String.ext he)
  have hdn : n.data ≠ [] := by
    intro he
    exact hn (String.ext he)
  have hstripl : pyStripList sym.data = sym.data := congrArg String.data hstrip
  have hnstripl : pyStripList n.data = n.data := congrArg String.data hnstrip
  have heq : ("CA" ++ d ++ ":" ++ sym ++ " #" ++ n) =
      String.mk ('C' :: 'A' :: d.data ++ ':' :: (sym.data ++ ' ' :: '#' :: n.data)) := by
    apply String.ext
    simp [data_append, data_mk]
  rw [heq, parse_ns_sym_note d.data sym.data n.data hd hdd hds hstripl hcolon hhash
    hdn hnstripl, string_mk_data, string_mk_data]

/-! ### Claim theorems -/

/-- C1 counterexample: the claim quantifies over every non-empty
colon-free symbol, but a symbol containing `#` (here `"a#b"`) is split at
its hash, and a symbol with leading whitespace (here `" L"`) is returned
stripped, so `decode(namespace + ":" + symbol)` is not
`{symbol, no note}` for those symbols. -/
theorem claim1_counterexample :
    ("a#b" ≠ "" ∧ containsChar ':' "a#b".data = false ∧
      parse_comment_mapping ("CA0" ++ ":" ++ "a#b") ≠
        MappingRecord.mk (some "a#b") none ∧
      parse_comment_mapping ("CA0" ++ ":" ++ "a#b") =
        MappingRecord.mk (some "a") (some "b")) ∧
    (" L" ≠ "" ∧ containsChar ':' " L".data = false ∧
      parse_comment_mapping ("CA0" ++ ":" ++ " L") ≠
        MappingRecord.mk (some " L") none ∧
      parse_comment_mapping ("CA0" ++ ":" ++ " L") =
        MappingRecord.mk (some "L") none) := by decide

/-- C1 (amended): for every namespace `"CA" ++ d` with `d` a non-empty
digit string and every symbol that is non-empty, stripped (no
leading/trailing whitespace), colon-free and hash-free,
`decode(namespace ++ ":" ++ symbol)` returns that symbol with no note;
and `decode "CA0:L #Length parameter"` returns symbol `"L"` with note
`"Length parameter"`. -/
theorem claim1_decode_wellformed :
    (∀ d sym : String,
      d.data ≠ [] → (∀ c ∈ d.data, c.isDigit = true) →
      sym ≠ "" → pyStrip sym = sym → ':' ∉ sym.data → '#' ∉ sym.data →
      parse_comment_mapping ("CA" ++ d ++ ":" ++ sym) = ⟨some sym, none⟩) ∧
    parse_comment_mapping "CA0:L #Length parameter" =
      ⟨some "L", some "Length parameter"⟩ := by
  refine ⟨?_, by decide⟩
  intro d sym hd hdd hs hstrip hcolon hhash
  exact parse_ns_sym_str d sym hd hdd hs hstrip hcolon hhash

/-- C1 witness: the amended theorem applied at namespace `"CA0"` and
symbol `"L"`. -/
theorem claim1_witness :
    parse_comment_mapping ("CA" ++ "0" ++ ":" ++ "L") = ⟨some "L", none⟩ :=
  claim1_decode_wellformed.1 "0" "L" (by decide) (by decide) (by decide)
    (by decide) (by decide) (by decide)

/-- C2: for every non-empty symbol, encoding yields
`"CA0" ++ ":" ++ symbol`, with `" #" ++ strip(note)` appended exactly
when the note is present and non-blank after stripping; in particular
`encode("L", none) = "CA0:L"` and
`encode("L", "Length parameter") = "CA0:L #Length parameter"`. -/
theorem claim2_encode_spec :
    (∀ s : String, s ≠ "" →
      build_comment_string (some s) none = "CA0" ++ ":" ++ s ∧
      (∀ n : String, pyStrip n = "" →
        build_comment_string (some s) (some n) = "CA0" ++ ":" ++ s) ∧
      (∀ n : String, pyStrip n ≠ "" →
        build_comment_string (some s) (some n) =
          "CA0" ++ ":" ++ s ++ " #" ++ pyStrip n)) ∧
    build_comment_string (some "L") none = "CA0:L" ∧
    build_comment_string (some "L") (some "Length parameter") =
      "CA0:L #Length parameter" := by
  refine ⟨?_, by decide, by decide⟩
  intro s hs
  refine ⟨?_, ?_, ?_⟩
  · simp [build_comment_string, build_comment_string_ns, hs]
  · intro n hn
    have hnl : pyStripList n.data = [] := congrArg String.data hn
    by_cases hne : n = ""
    · subst hne
      simp [build_comment_string, build_comment_string_ns, hs]
    · simp [build_comment_string, build_comment_string_ns, hs, hne, hnl]
  · intro n hn
    have hne : n ≠ "" := by
      intro he
      subst he
      exact hn rfl
    have hnl : pyStripList n.data ≠ [] := by
      intro he
      exact hn (String.ext he)
    simp [build_comment_string, build_comment_string_ns, hs, hne, hnl]

/-- C2 witness: the theorem applied at symbol `"W"` with a padded note. -/
theorem claim2_witness :
    build_comment_string (some "W") (some "  note  ") =
      "CA0" ++ ":" ++ "W" ++ " #" ++ pyStrip "  note  " :=
  (claim2_encode_spec.1 "W" (by decide)).2.2 "  note  " (by decide)

/-- C3: encoding with an absent or empty symbol returns the empty string
for every note, discarding the note. -/
theorem claim3_encode_no_symbol (note : Option String) :
    build_comment_string none note = "" ∧
      build_comment_string (some "") note = "" := by
  constructor
  · rfl
  · simp [build_comment_string, build_comment_string_ns]

/-- C3 witness: the theorem applied at note `"Note"`. -/
theorem claim3_witness :
    build_comment_string none (some "Note") = "" ∧
      build_comment_string (some "") (some "Note") = "" :=
  claim3_encode_no_symbol (some "Note")

/-- C4: decoding returns exactly the canonical empty record — note
included — whenever the input is blank, the mapping part has no colon,
the namespace candidate fails validation, or the symbol candidate is
empty or contains a colon. -/
theorem claim4_invalid_empty (s : String) :
    (pyStripList s.data = [] → parse_comment_mapping s = emptyRecord) ∧
    (':' ∉ mappingPartOf (pyStripList s.data) →
      parse_comment_mapping s = emptyRecord) ∧
    (nsValid (nsCandOf s) = false → parse_comment_mapping s = emptyRecord) ∧
    ((symCandOf s = [] ∨ containsChar ':' (symCandOf s) = true) →
      parse_comment_mapping s = emptyRecord) := by
  refine ⟨?_, ?_, ?_, ?_⟩
  · intro h
    unfold parse_comment_mapping
    rw [if_pos h]
  · intro h
    have hn := splitFirst_eq_none_of ':' _ h
    by_cases h0 : pyStripList s.data = []
    · unfold parse_comment_mapping
      rw [if_pos h0]
    · unfold parse_comment_mapping
      rw [if_neg h0, hn]
  · intro h
    by_cases h0 : pyStripList s.data = []
    · unfold parse_comment_mapping
      rw [if_pos h0]
    · cases hsp : splitFirst ':' (mappingPartOf (pyStripList s.data)) with
      | none =>
        unfold parse_comment_mapping
        rw [if_neg h0, hsp]
      | some p =>
        obtain ⟨a, b⟩ := p
        unfold nsCandOf at h
        rw [hsp] at h
        rw [parse_eval s h0 a b hsp, if_neg]
        simp [h]
  · intro h
    by_cases h0 : pyStripList s.data = []
    · unfold parse_comment_mapping
      rw [if_pos h0]
    · cases hsp : splitFirst ':' (mappingPartOf (pyStripList s.data)) with
      | none =>
        unfold parse_comment_mapping
        rw [if_neg h0, hsp]
      | some p =>
        obtain ⟨a, b⟩ := p
        unfold symCandOf at h
        rw [hsp] at h
        rw [parse_eval s h0 a b hsp]
        by_cases hns : nsValid (pyStripList a) = true
        · rw [if_pos hns, if_pos h]
        · rw [if_neg hns]

/-- C4 witness: the theorem applied at `"L #Note"`, whose mapping part
has no colon although a note candidate `"Note"` was present. -/
theorem claim4_witness :
    ':' ∉ mappingPartOf (pyStripList "L #Note".data) ∧
      noteCandOf (pyStripList "L #Note".data) = some "Note" ∧
      parse_comment_mapping "L #Note" = emptyRecord :=
  ⟨by decide, by decide, (claim4_invalid_empty "L #Note").2.1 (by decide)⟩

/-- C5 counterexample: the claim quantifies over every non-empty
colon-free symbol, but the round trip fails for the symbol `"a#b"`
(encoded `"CA0:a#b"`, decoded back as symbol `"a"` with note `"b"`). -/
theorem claim5_counterexample :
    ("a#b" ≠ "" ∧ containsChar ':' "a#b".data = false ∧
      build_comment_string (some "a#b") none = "CA0:a#b") ∧
    parse_comment_mapping (build_comment_string (some "a#b") none) ≠
      MappingRecord.mk (some "a#b") none := by decide

/-- C5 (amended): for every symbol that is non-empty, stripped,
colon-free and hash-free, and every note with no leading or trailing
whitespace, `decode(encode(symbol, note))` returns the symbol, and the
note exactly when it was present and non-empty. -/
theorem claim5_round_trip (sym : String) (note : Option String)
    (hs : sym ≠ "") (hstrip : pyStrip sym = sym)
    (hcolon : ':' ∉ sym.data) (hhash : '#' ∉ sym.data)
    (hnote : ∀ n, note = some n → pyStrip n = n) :
    parse_comment_mapping (build_comment_string (some sym) note) =
      ⟨some sym,
        match note with
        | none => none
        | some n => if n = "" then none else some n⟩ := by
  cases note with
  | none =>
    have hb : build_comment_string (some sym) none = "CA0" ++ ":" ++ sym := by
      simp [build_comment_string, build_comment_string_ns, hs]
    rw [hb]
    exact parse_ns_sym_str "0" sym (by decide) (by decide) hs hstrip hcolon hhash
  | some n =>
    by_cases hne : n = ""
    · subst hne
      have hb : build_comment_string (some sym) (some "") = "CA0" ++ ":" ++ sym := by
        simp [build_comment_string, build_comment_string_ns, hs]
      rw [hb]
      exact parse_ns_sym_str "0" sym (by decide) (by decide) hs hstrip hcolon hhash
    · have hnstrip : pyStrip n = n := hnote n rfl
      have hnl : pyStripList n.data ≠ [] := by
        intro he
        have h2 : pyStripList n.data = n.data := congrArg String.data hnstrip
        have hdn : n.data = [] := by rw [← h2]; exact he
        exact hne (String.ext hdn)
      have hb : build_comment_string (some sym) (some n) =
          "CA0" ++ ":" ++ sym ++ " #" ++ n := by
        simp [build_comment_string, build_comment_string_ns, hs, hne, hnl, hnstrip]
      rw [hb]
      have h3 : parse_comment_mapping ("CA0" ++ ":" ++ sym ++ " #" ++ n) =
          ⟨some sym, some n⟩ :=
        parse_ns_sym_note_str "0" sym n (by decide) (by decide) hs hstrip
          hcolon hhash hne hnstrip
      rw [h3]
      simp [hne]

/-- C5 witness: the amended round trip applied at symbol `"L"` and note
`"Length parameter"`. -/
theorem claim5_witness :
    parse_comment_mapping (build_comment_string (some "L") (some "Length parameter")) =
      ⟨some "L", some "Length parameter"⟩ := by
  have := claim5_round_trip "L" (some "Length parameter") (by decide) (by decide)
    (by decide) (by decide)
    (fun n h => by rw [← Option.some.inj h]; decide)
  exact this.trans (by decide)

/-- C6: only the first `#` delimits the note, which is preserved verbatim
(stripped at its ends only), further `#` and backtick characters
included; in particular the nested backtick example from the test suite. -/
theorem claim6_first_hash :
    (∀ sym n : String, sym ≠ "" → pyStrip sym = sym → ':' ∉ sym.data →
      '#' ∉ sym.data → n ≠ "" → pyStrip n = n →
      parse_comment_mapping ("CA0" ++ ":" ++ sym ++ " #" ++ n) =
        ⟨some sym, some n⟩) ∧
    parse_comment_mapping "CA0:L #`Length #1` #`Design #3`" =
      ⟨some "L", some "`Length #1` #`Design #3`"⟩ := by
  refine ⟨?_, by decide⟩
  intro sym n h1 h2 h3 h4 h5 h6
  exact parse_ns_sym_note_str "0" sym n (by decide) (by decide) h1 h2 h3 h4 h5 h6

/-- C6 witness: the theorem applied at symbol `"L"` and a note containing
a further hash and backticks. -/
theorem claim6_witness :
    parse_comment_mapping ("CA0" ++ ":" ++ "L" ++ " #" ++ "a #b `c`") =
      ⟨some "L", some "a #b `c`"⟩ :=
  claim6_first_hash.1 "L" "a #b `c`" (by decide) (by decide) (by decide)
    (by decide) (by decide) (by decide)

/-- C7 counterexample: the claim requires the text after `"CA"` to parse
entirely as a non-negative integer (all decimal digits), but the parser
delegates to Python `int()`, which also accepts the signed numeral
`"-1"`: `"CA-1:L"` decodes to symbol `"L"` instead of the empty record. -/
theorem claim7_counterexample :
    nsCandOf "CA-1:L" = ['C', 'A', '-', '1'] ∧
    (['-', '1'].all Char.isDigit) = false ∧
    parse_comment_mapping "CA-1:L" ≠ emptyRecord ∧
    parse_comment_mapping "CA-1:L" = MappingRecord.mk (some "L") none := by decide

/-- C7 (amended): a non-empty decode result always has a namespace
candidate accepted by the validator; the validator accepts `"CA" ++ rest`
exactly when `rest` is non-empty and Python `int()` accepts it (optional
surrounding whitespace, an optional sign, digits possibly separated by
single underscores) — not only plain digit strings; `"XY:L #Note"` is
rejected while `"CA-1:L"` is accepted. -/
theorem claim7_namespace_validation :
    (∀ s : String, parse_comment_mapping s ≠ emptyRecord →
      nsValid (nsCandOf s) = true) ∧
    (∀ rest : List Char,
      nsValid ('C' :: 'A' :: rest) = (!rest.isEmpty && pyIntOk rest)) ∧
    (∀ c1 c2 : Char, ∀ rest : List Char, ¬(c1 = 'C' ∧ c2 = 'A') →
      nsValid (c1 :: c2 :: rest) = false) ∧
    parse_comment_mapping "XY:L #Note" = emptyRecord ∧
    parse_comment_mapping "CA-1:L" = MappingRecord.mk (some "L") none := by
  refine ⟨?_, ?_, ?_, by decide, by decide⟩
  · intro s h
    obtain ⟨a, b, hsp, hns, _, _, _⟩ := parse_inv s h
    unfold nsCandOf
    rw [hsp]
    exact hns
  · intro rest
    rfl
  · intro c1 c2 rest h
    unfold nsValid
    split
    · rename_i heq
      injection heq with e1 heq2
      injection heq2 with e2 _
      exact absurd ⟨e1, e2⟩ h
    · rfl

/-- C7 witness: the amended theorem applied at the accepted input
`"CA0:L"`. -/
theorem claim7_witness : nsValid (nsCandOf "CA0:L") = true :=
  claim7_namespace_validation.1 "CA0:L" (by decide)

/-- C8: any non-empty decode result has a symbol candidate that is
non-empty after stripping and colon-free; `"CA0: #Note"` (empty symbol)
and `"CA0:ratio:1 #Note"` (colon inside the symbol) decode to the empty
record. -/
theorem claim8_symbol_validation :
    (∀ s : String, parse_comment_mapping s ≠ emptyRecord →
      symCandOf s ≠ [] ∧ containsChar ':' (symCandOf s) = false) ∧
    parse_comment_mapping "CA0: #Note" = emptyRecord ∧
    parse_comment_mapping "CA0:ratio:1 #Note" = emptyRecord := by
  refine ⟨?_, by decide, by decide⟩
  intro s h
  obtain ⟨a, b, hsp, _, hne, hcc, _⟩ := parse_inv s h
  unfold symCandOf
  rw [hsp]
  exact ⟨hne, hcc⟩

/-- C8 witness: the theorem applied at the accepted input `"CA0:L"`. -/
theorem claim8_witness :
    symCandOf "CA0:L" ≠ [] ∧ containsChar ':' (symCandOf "CA0:L") = false :=
  claim8_symbol_validation.1 "CA0:L" (by decide)

/-- C9: both operations are total functions of their input; every decode
result is either the canonical empty record or carries a symbol (a
mapping of `none` forces the whole record, note included, to be empty),
and every encode with an absent or empty symbol returns the empty
string. -/
theorem claim9_totality :
    (∀ s : String, (parse_comment_mapping s).mapping = none →
      parse_comment_mapping s = emptyRecord) ∧
    (∀ s : String, parse_comment_mapping s = emptyRecord ∨
      ∃ sym, (parse_comment_mapping s).mapping = some sym) ∧
    (∀ symbol note : Option String, (symbol = none ∨ symbol = some "") →
      build_comment_string symbol note = "") := by
  refine ⟨parse_mapping_none, ?_, ?_⟩
  · intro s
    by_cases h : parse_comment_mapping s = emptyRecord
    · exact Or.inl h
    · obtain ⟨a, b, _, _, _, _, hres⟩ := parse_inv s h
      exact Or.inr ⟨String.mk (pyStripList b), by rw [hres]⟩
  · rintro symbol note (rfl | rfl)
    · rfl
    · simp [build_comment_string, build_comment_string_ns]

/-- C9 witness: the theorem applied at the malformed input `"###"` and at
an absent symbol. -/
theorem claim9_witness :
    parse_comment_mapping "###" = emptyRecord ∧
      build_comment_string none (some "Note") = "" :=
  ⟨claim9_totality.1 "###" (by decide),
    claim9_totality.2.2 none (some "Note") (Or.inl rfl)⟩

/-- C10: the parser deployed in `inventor_api.py` implements the
token-based `"#AC:"` / `"#Note:"` grammar: a lone `"#Note:{{x}}"` token
yields a note with no mapping, a well-formed `"CA0:L #..."` comment of
the new grammar yields no mapping at all (though the new codec maps it),
and an `"#AC:"` token sets the mapping. -/
theorem claim10_deployed_divergence :
    InventorApi.parse_comment_mapping "#Note:\x7b\x7bx\x7d\x7d" =
      MappingRecord.mk none (some "x") ∧
    InventorApi.parse_comment_mapping "CA0:L #Length parameter" =
      MappingRecord.mk none none ∧
    parse_comment_mapping "CA0:L #Length parameter" =
      MappingRecord.mk (some "L") (some "Length parameter") ∧
    InventorApi.parse_comment_mapping "#AC:flow_rate #Note:\x7b\x7bMain\x7d\x7d" =
      MappingRecord.mk (some "flow_rate") (some "Main") := by decide
